import Mathlib

/-!
Shallow embedding of the mdict-sqlite-utils transformation pipeline
(`src/database.ts`, `src/types.ts`, `src/workflows.ts`) together with proofs
about it.

Records live in a SQLite table `mdx (entry TEXT, paraphrase TEXT,
content_type INTEGER)` with the implicit integer `rowid`.  A store is
modelled as a `List MdxRecord`, one element per row; the SQL statements used
by the code are modelled by filtering, sorting by `rowid` and truncating,
mirroring their `WHERE ... ORDER BY rowid LIMIT ?` shape.
-/

/-- One row of the `mdx` table.  `content_type` is the raw INTEGER stored in
the column (the TypeScript `enum ContentType { HTML, LINK }` assigns
HTML = 0 and LINK = 1, but the column itself can hold any integer);
`rowid` is the SQLite-assigned row id. -/
structure MdxRecord where
  entry : String
  paraphrase : String
  content_type : Nat
  rowid : Nat
deriving DecidableEq

/-- Numeric value of `ContentType.HTML` from `types.ts`. -/
def ContentType.HTML : Nat := 0

/-- Numeric value of `ContentType.LINK` from `types.ts`. -/
def ContentType.LINK : Nat := 1

/-- Comparison of two rows by `rowid`, the order used by `ORDER BY rowid`. -/
def rowidLE (a b : MdxRecord) : Prop := a.rowid ≤ b.rowid

/-- Strict version of `rowidLE`; on stores with distinct rowids the two
orders sort identically. -/
def rowidLT (a b : MdxRecord) : Prop := a.rowid < b.rowid

instance : DecidableRel rowidLE := fun a b => Nat.decLe a.rowid b.rowid

instance : DecidableRel rowidLT := fun a b => Nat.decLt a.rowid b.rowid

instance : IsTotal MdxRecord rowidLE := ⟨fun a b => Nat.le_total a.rowid b.rowid⟩

instance : IsTrans MdxRecord rowidLE := ⟨fun _ _ _ => Nat.le_trans⟩

instance : IsTrans MdxRecord rowidLT := ⟨fun _ _ _ => Nat.lt_trans⟩

instance : IsAntisymm MdxRecord rowidLT :=
  ⟨fun _ _ h h' => absurd (Nat.lt_trans h h') (Nat.lt_irrefl _)⟩

/-- The `ORDER BY rowid` clause: sort rows ascending by rowid. -/
def sortByRowid (l : List MdxRecord) : List MdxRecord :=
  l.insertionSort rowidLE

/-- The optional `WHERE content_type = ?` clause: `fetchRecords` and
`fetchRecordsPaginated` prepare one statement with the clause and one
without, depending on whether `contentType` was passed. -/
def matchCT : Option Nat → MdxRecord → Bool
  | none, _ => true
  | some c, r => r.content_type == c

/-- `fetchRecords(contentType?)`:
`SELECT entry, paraphrase, content_type, rowid FROM mdx [WHERE content_type = ?] ORDER BY rowid`. -/
def fetchRecords (db : List MdxRecord) (contentType : Option Nat) : List MdxRecord :=
  sortByRowid (db.filter (matchCT contentType))

/-- `fetchLinkRecords()` = `fetchRecords(ContentType.LINK)`. -/
def fetchLinkRecords (db : List MdxRecord) : List MdxRecord :=
  fetchRecords db (some ContentType.LINK)

/-- One pull of the pagination cursor:
`SELECT ... FROM mdx [WHERE content_type = ?] AND rowid > ? ORDER BY rowid LIMIT ?`
with `?` bound to `lastRowId` and `pageSize`. -/
def sqlSelectPage (db : List MdxRecord) (contentType : Option Nat)
    (lastRowId : Nat) (pageSize : Nat) : List MdxRecord :=
  (sortByRowid (db.filter fun r => matchCT contentType r && decide (lastRowId < r.rowid))).take pageSize

/-- Loop body of the generator `fetchRecordsPaginated`: repeatedly pull a
page, stop on an empty page, otherwise advance the watermark to the last
record's rowid (`lastRowId = records[records.length - 1].rowid!`).  The
`fuel` argument only bounds the number of iterations; `fetchRecordsPaginated`
supplies enough fuel for the loop to run to its `break`. -/
def fetchRecordsPaginatedGo (db : List MdxRecord) (contentType : Option Nat)
    (pageSize : Nat) : Nat → Nat → List (List MdxRecord)
  | 0, _ => []
  | fuel + 1, lastRowId =>
    match sqlSelectPage db contentType lastRowId pageSize with
    | [] => []
    | r :: rs =>
      (r :: rs) ::
        fetchRecordsPaginatedGo db contentType pageSize fuel
          ((r :: rs).getLast (List.cons_ne_nil r rs)).rowid

/-- `fetchRecordsPaginated(contentType?, pageSize)`: the list of pages the
generator yields, starting from watermark `0`. -/
def fetchRecordsPaginated (db : List MdxRecord) (contentType : Option Nat)
    (pageSize : Nat) : List (List MdxRecord) :=
  fetchRecordsPaginatedGo db contentType pageSize (db.length + 1) 0

/-- `fetchHtmlRecordsPaginated(pageSize)`. -/
def fetchHtmlRecordsPaginated (db : List MdxRecord) (pageSize : Nat) : List (List MdxRecord) :=
  fetchRecordsPaginated db (some ContentType.HTML) pageSize

/-- The type of the dynamically imported `transformHtml` function. -/
def TransformFn : Type := String → String

/-- Pure core of the worker function `transformHtmlRecords`:
`records.map(record => ({ ...record, paraphrase: transformHtml(record.paraphrase) }))`. -/
def transformHtmlRecordsPure (transformHtml : TransformFn) (records : List MdxRecord) :
    List MdxRecord :=
  records.map fun record => { record with paraphrase := transformHtml record.paraphrase }

/-- Per-worker-context state: the globals `globalThis.transformHtml` and
`globalThis.transformModulePath` that `transformHtmlRecords` reads and
writes inside each worker context. -/
structure WorkerState where
  transformHtml : Option TransformFn
  transformModulePath : Option String

/-- `transformHtmlRecords(records, modulePath)` as run inside one worker
context (`database.ts` lines 10–25).  `load` models `await import(modulePath)`
together with the export-shape check: a missing module or a non-function
`transformHtml` export is an `Except.error`.  The function (re)loads when the
cached function is undefined or the cached module path differs, then maps the
function over the chunk.  The returned `Bool` reports whether a load
happened on this dispatch. -/
def transformHtmlRecordsWorker (load : String → Except String TransformFn)
    (st : WorkerState) (records : List MdxRecord) (modulePath : String) :
    Except String (WorkerState × List MdxRecord × Bool) :=
  match st.transformHtml with
  | some f =>
    if st.transformModulePath = some modulePath then
      .ok (st, transformHtmlRecordsPure f records, false)
    else
      match load modulePath with
      | .error e => .error e
      | .ok g => .ok (⟨some g, some modulePath⟩, transformHtmlRecordsPure g records, true)
  | none =>
    match load modulePath with
    | .error e => .error e
    | .ok g => .ok (⟨some g, some modulePath⟩, transformHtmlRecordsPure g records, true)

/-- The chunking loop of the static `transformHtmlRecordsInParallel`:
`for (let i = 0; i < htmlRecords.length; i += chunkSize) chunks.push(htmlRecords.slice(i, i + chunkSize))`.
With `chunkSize = 0` the TypeScript loop never advances `i` and diverges on a
nonempty input; the model returns `[]` there, and every claim about the
scheduler assumes a positive chunk size. -/
def chunkRecords (chunkSize : Nat) : List MdxRecord → List (List MdxRecord)
  | [] => []
  | r :: rest =>
    match chunkSize with
    | 0 => []
    | c + 1 => ((r :: rest).take (c + 1)) :: chunkRecords (c + 1) ((r :: rest).drop (c + 1))
termination_by l => l.length
decreasing_by
  simp [List.length_drop]
  omega

/-- The static method `MdxDatabase.transformHtmlRecordsInParallel`: split
into chunks, dispatch every chunk to the pool (each dispatch runs the pure
record map with the loaded function), await all, concatenate in chunk order
(`transformedChunks.flat()`). -/
def transformHtmlRecordsInParallelStatic (transformHtml : TransformFn)
    (htmlRecords : List MdxRecord) (chunkSize : Nat) : List MdxRecord :=
  ((chunkRecords chunkSize htmlRecords).map (transformHtmlRecordsPure transformHtml)).flatten

/-- `MdxDatabase.splitRecordsByContentType`: push each record onto the HTML
list when `content_type === ContentType.HTML`, onto the LINK list when
`content_type === ContentType.LINK`, and otherwise onto neither. -/
def splitRecordsByContentType : List MdxRecord → List MdxRecord × List MdxRecord
  | [] => ([], [])
  | r :: rest =>
    let result := splitRecordsByContentType rest
    if r.content_type == ContentType.HTML then (r :: result.1, result.2)
    else if r.content_type == ContentType.LINK then (result.1, r :: result.2)
    else result

/-- The write-back loop of `processRecordsInParallel`:
`for (let i = 0; i < htmlRecords.length; i++) htmlRecords[i].paraphrase = transformedRecords[i].paraphrase`.
`htmlRecords` aliases the HTML records inside the page, so the loop replaces,
in place, the paraphrase of the i-th HTML record of the page with the
paraphrase of the i-th transformed record; non-HTML records are untouched. -/
def mergeTransformedHtml : List MdxRecord → List MdxRecord → List MdxRecord
  | [], _ => []
  | r :: rest, transformed =>
    if r.content_type == ContentType.HTML then
      match transformed with
      | [] => r :: mergeTransformedHtml rest []
      | t :: ts => { r with paraphrase := t.paraphrase } :: mergeTransformedHtml rest ts
    else r :: mergeTransformedHtml rest transformed

/-- One loop iteration of the generator `processRecordsInParallel`: filter
the page's HTML records, transform them through the chunk scheduler, write
the results back in place, and yield the (mutated) page. -/
def processPage (transformHtml : TransformFn) (chunkSize : Nat)
    (records : List MdxRecord) : List MdxRecord :=
  mergeTransformedHtml records
    (transformHtmlRecordsInParallelStatic transformHtml
      (records.filter fun record => record.content_type == ContentType.HTML) chunkSize)

/-- The generator `processRecordsInParallel(modulePath, pageSize, chunkSize)`:
the pages it yields, in order. -/
def processRecordsInParallel (transformHtml : TransformFn) (db : List MdxRecord)
    (pageSize chunkSize : Nat) : List (List MdxRecord) :=
  (fetchRecordsPaginated db none pageSize).map (processPage transformHtml chunkSize)

/-- The generator method `transformHtmlRecordsInParallel(modulePath, pageSize, chunkSize)`:
the pages it yields, in order (each page of HTML records transformed through
the chunk scheduler). -/
def transformHtmlRecordsInParallelGen (transformHtml : TransformFn) (db : List MdxRecord)
    (pageSize chunkSize : Nat) : List (List MdxRecord) :=
  (fetchHtmlRecordsPaginated db pageSize).map
    (fun htmlRecords => transformHtmlRecordsInParallelStatic transformHtml htmlRecords chunkSize)

/-- The destination contents after `runTransformWorkflow` without
`htmlBeforeLink`: one `insertRecords` call per yielded page, so the
destination holds the concatenation of the yielded pages in order. -/
def runTransformWorkflowInterleaved (transformHtml : TransformFn) (db : List MdxRecord)
    (pageSize chunkSize : Nat) : List MdxRecord :=
  (processRecordsInParallel transformHtml db pageSize chunkSize).flatten

/-- The destination contents after `runTransformWorkflow` with
`htmlBeforeLink`: the transformed HTML pages inserted page by page, followed
by one final `insertRecords(sourceDatabase.fetchLinkRecords())` batch. -/
def runTransformWorkflowHtmlBeforeLink (transformHtml : TransformFn) (db : List MdxRecord)
    (pageSize chunkSize : Nat) : List MdxRecord :=
  (transformHtmlRecordsInParallelGen transformHtml db pageSize chunkSize).flatten
    ++ fetchLinkRecords db

/-- Observable pool-lifecycle events of one generator run. -/
inductive PoolEvent where
  | createPool
  | dispatch
  | yieldPage
  | terminate
deriving DecidableEq

/-- How a generator run ends: the loop body runs to completion, or an error
is thrown after `k` body events, or the consumer abandons the generator
after `k` body events (JavaScript then resumes the generator at its
`finally` block). -/
inductive GenFate where
  | complete
  | throwAt (k : Nat)
  | cancelAt (k : Nat)

/-- Events emitted by the `for ... of` loop body shared by both pipeline
generators: for each page, one `dispatch` per chunk sent to the pool
(`pool.exec` inside `Promise.all`), then one `yieldPage`.  `chunkCounts`
lists the number of chunks of each fetched page. -/
def genBodyEvents (chunkCounts : List Nat) : List PoolEvent :=
  (chunkCounts.map fun c => List.replicate c PoolEvent.dispatch ++ [PoolEvent.yieldPage]).flatten

/-- The full event trace of one generator run: `workerpool.pool()` first,
then the `try` block's loop (truncated at the point where the run throws or
is abandoned), then — on every one of the three exit paths — the `finally`
block's single `await pool.terminate()`. -/
def genRunEvents (chunkCounts : List Nat) (fate : GenFate) : List PoolEvent :=
  PoolEvent.createPool ::
    (match fate with
     | .complete => genBodyEvents chunkCounts
     | .throwAt k => (genBodyEvents chunkCounts).take k
     | .cancelAt k => (genBodyEvents chunkCounts).take k)
    ++ [PoolEvent.terminate]

/-- Event trace of one `processRecordsInParallel` run: per fetched page, one
dispatch per chunk of its HTML subset. -/
def processRecordsInParallelEvents (db : List MdxRecord) (pageSize chunkSize : Nat)
    (fate : GenFate) : List PoolEvent :=
  genRunEvents
    ((fetchRecordsPaginated db none pageSize).map fun page =>
      (chunkRecords chunkSize (page.filter fun r => r.content_type == ContentType.HTML)).length)
    fate

/-- Event trace of one generator-method `transformHtmlRecordsInParallel`
run: per fetched HTML page, one dispatch per chunk. -/
def transformHtmlRecordsInParallelEvents (db : List MdxRecord) (pageSize chunkSize : Nat)
    (fate : GenFate) : List PoolEvent :=
  genRunEvents
    ((fetchHtmlRecordsPaginated db pageSize).map fun page =>
      (chunkRecords chunkSize page).length)
    fate

/-- The chunk dispatch round of one page under a fallible module loader
(`Promise.all(chunks.map(chunk => pool.exec(transformHtmlRecords, ...)))`).
With no chunks, no worker runs and the module is never loaded; otherwise
every chunk is dispatched before the results are awaited, and each dispatch
fails when the loader fails.  Returns the result together with the number of
dispatches sent to the pool. -/
def dispatchChunksE (load : Except String TransformFn) (chunks : List (List MdxRecord)) :
    Except String (List MdxRecord) × Nat :=
  match chunks with
  | [] => (.ok [], 0)
  | _ :: _ =>
    match load with
    | .error e => (.error e, chunks.length)
    | .ok f => (.ok ((chunks.map (transformHtmlRecordsPure f)).flatten), chunks.length)

/-- The page loop of `processRecordsInParallel` under a fallible module
loader: pages are processed sequentially; the first failing page aborts the
run (the generator rethrows), and later pages are never fetched.  Returns
the yielded pages (or the error) together with the total dispatch count. -/
def processPagesE (load : Except String TransformFn) (chunkSize : Nat) :
    List (List MdxRecord) → Except String (List (List MdxRecord)) × Nat
  | [] => (.ok [], 0)
  | page :: rest =>
    let htmlRecords := page.filter fun r => r.content_type == ContentType.HTML
    match dispatchChunksE load (chunkRecords chunkSize htmlRecords) with
    | (.error e, n) => (.error e, n)
    | (.ok transformed, n) =>
      match processPagesE load chunkSize rest with
      | (.error e, m) => (.error e, n + m)
      | (.ok pages, m) => (.ok (mergeTransformedHtml page transformed :: pages), n + m)

/-- `runTransformWorkflow` (default mode) under failure: `moduleExists`
models `fs.existsSync(modulePath)` checked by `validateModuleExists` before
anything else runs; when it is false the workflow throws `Module not found`
with zero dispatches.  Otherwise the paginated run proceeds under the
fallible loader.  Returns the inserted destination records (or the error)
and the number of chunk dispatches sent to the worker pool. -/
def runTransformWorkflowE (moduleExists : Bool) (load : Except String TransformFn)
    (db : List MdxRecord) (pageSize chunkSize : Nat) :
    Except String (List MdxRecord) × Nat :=
  if moduleExists then
    match processPagesE load chunkSize (fetchRecordsPaginated db none pageSize) with
    | (.ok pages, n) => (.ok pages.flatten, n)
    | (.error e, n) => (.error e, n)
  else (.error "Module not found at path", 0)

/-- Effect of `processRecordsInParallel` on a single record of a page: HTML
records get their paraphrase transformed, all other records pass through
unchanged.  Used to state the reassembly theorems. -/
def transformRecordIfHtml (transformHtml : TransformFn) (r : MdxRecord) : MdxRecord :=
  if r.content_type == ContentType.HTML then
    { r with paraphrase := transformHtml r.paraphrase }
  else r

/-- Sample rows used by the concrete witnesses and counterexamples: three
HTML records and two LINK records, interleaved by rowid as a, x, b, y, c,
stored in shuffled order to exercise the `ORDER BY rowid` sorting. -/
def recA : MdxRecord := ⟨"a", "pa", 0, 1⟩

def recX : MdxRecord := ⟨"x", "px", 1, 2⟩

def recB : MdxRecord := ⟨"b", "pb", 0, 3⟩

def recY : MdxRecord := ⟨"y", "py", 1, 4⟩

def recC : MdxRecord := ⟨"c", "pc", 0, 5⟩

/-- A row whose `content_type` is neither HTML nor LINK, as the untyped
INTEGER column permits. -/
def recOther : MdxRecord := ⟨"z", "pz", 2, 6⟩

/-- The sample store, in shuffled physical order. -/
def sampleDb : List MdxRecord := [recB, recA, recY, recC, recX]

/-- A sample transform function. -/
def exclaimFn : TransformFn := fun s => s ++ "!"

/-- The identity transform function. -/
def identityFn : TransformFn := fun s => s

/-- A module loader that succeeds on every path with the identity function. -/
def loadOk : String → Except String TransformFn := fun _ => .ok identityFn

/-! ## Lemmas about the chunk scheduler -/

theorem chunkRecords_flatten (c : Nat) (hc : 0 < c) (l : List MdxRecord) :
    (chunkRecords c l).flatten = l := by
  cases l with
  | nil => simp [chunkRecords]
  | cons r rest =>
    cases c with
    | zero => exact absurd hc (Nat.lt_irrefl 0)
    | succ c' =>
      have ih := chunkRecords_flatten (c' + 1) (Nat.succ_pos c') (List.drop (c' + 1) (r :: rest))
      rw [chunkRecords, List.flatten_cons, ih, List.take_append_drop]
termination_by l.length
decreasing_by
  simp [List.length_drop]
  omega

theorem chunkRecords_chunk_length_le (c : Nat) (l : List MdxRecord) :
    ∀ chunk ∈ chunkRecords c l, chunk.length ≤ c := by
  cases l with
  | nil => simp [chunkRecords]
  | cons r rest =>
    cases c with
    | zero => simp [chunkRecords]
    | succ c' =>
      intro chunk hmem
      rw [chunkRecords] at hmem
      rcases List.mem_cons.mp hmem with h | h
      · subst h
        simp [Nat.min_le_left]
      · exact chunkRecords_chunk_length_le (c' + 1) _ chunk h
termination_by l.length
decreasing_by
  simp [List.length_drop]
  omega

theorem transformHtmlRecordsPure_length (f : TransformFn) (l : List MdxRecord) :
    (transformHtmlRecordsPure f l).length = l.length := by
  simp [transformHtmlRecordsPure]

theorem transformHtmlRecordsInParallelStatic_eq (f : TransformFn) (c : Nat) (hc : 0 < c)
    (l : List MdxRecord) :
    transformHtmlRecordsInParallelStatic f l c = transformHtmlRecordsPure f l := by
  have hmap : transformHtmlRecordsPure f
      = List.map (fun record => { record with paraphrase := f record.paraphrase }) := rfl
  rw [transformHtmlRecordsInParallelStatic, hmap, ← List.map_flatten,
    chunkRecords_flatten c hc l]

/-- C4: for every input list of transformable records and every chunk size
C > 0, the chunk scheduler splits the input into consecutive chunks of at
most C records (their concatenation is the input itself), dispatches them
all, and returns the concatenation of the transformed chunks in original
chunk order, which equals the plain record-wise transform of the input —
same length and same record order as the input. -/
theorem transformHtmlRecordsInParallelStatic_spec (f : TransformFn) (l : List MdxRecord)
    (c : Nat) (hc : 0 < c) :
    (∀ chunk ∈ chunkRecords c l, chunk.length ≤ c) ∧
    (chunkRecords c l).flatten = l ∧
    transformHtmlRecordsInParallelStatic f l c = transformHtmlRecordsPure f l ∧
    (transformHtmlRecordsInParallelStatic f l c).length = l.length := by
  refine ⟨chunkRecords_chunk_length_le c l, chunkRecords_flatten c hc l,
    transformHtmlRecordsInParallelStatic_eq f c hc l, ?_⟩
  rw [transformHtmlRecordsInParallelStatic_eq f c hc l, transformHtmlRecordsPure_length]

/-- C4 witness: an uppercasing transform applied to three records in chunks
of size 1 returns the uppercased records in the original order. -/
theorem transformHtmlRecordsInParallelStatic_spec_witness :
    (0 : Nat) < 1 ∧
    transformHtmlRecordsInParallelStatic (fun s => ⟨s.data.map Char.toUpper⟩)
        [⟨"e1", "ab", 0, 1⟩, ⟨"e2", "cd", 0, 2⟩, ⟨"e3", "ef", 0, 3⟩] 1
      = [⟨"e1", "AB", 0, 1⟩, ⟨"e2", "CD", 0, 2⟩, ⟨"e3", "EF", 0, 3⟩] := by
  refine ⟨Nat.zero_lt_one, ?_⟩
  rw [(transformHtmlRecordsInParallelStatic_spec (fun s => ⟨s.data.map Char.toUpper⟩)
    [⟨"e1", "ab", 0, 1⟩, ⟨"e2", "cd", 0, 2⟩, ⟨"e3", "ef", 0, 3⟩] 1 Nat.zero_lt_one).2.2.1]
  decide

/-! ## Lemmas about the worker function -/

theorem transformHtmlRecordsWorker_ok (load : String → Except String TransformFn)
    (st : WorkerState) (records : List MdxRecord) (modulePath : String)
    (st' : WorkerState) (out : List MdxRecord) (didLoad : Bool)
    (h : transformHtmlRecordsWorker load st records modulePath = .ok (st', out, didLoad)) :
    ∃ f, st'.transformHtml = some f ∧ out = transformHtmlRecordsPure f records := by
  unfold transformHtmlRecordsWorker at h
  cases hcache : st.transformHtml with
  | some f =>
    simp only [hcache] at h
    by_cases hpath : st.transformModulePath = some modulePath
    · simp only [if_pos hpath] at h
      simp only [Except.ok.injEq, Prod.mk.injEq] at h
      obtain ⟨h1, h2, -⟩ := h
      exact ⟨f, by rw [← h1, hcache], h2.symm⟩
    · simp only [if_neg hpath] at h
      cases hload : load modulePath with
      | error e => simp only [hload] at h; exact absurd h (by simp)
      | ok g =>
        simp only [hload, Except.ok.injEq, Prod.mk.injEq] at h
        obtain ⟨h1, h2, -⟩ := h
        exact ⟨g, by rw [← h1], h2.symm⟩
  | none =>
    simp only [hcache] at h
    cases hload : load modulePath with
    | error e => simp only [hload] at h; exact absurd h (by simp)
    | ok g =>
      simp only [hload, Except.ok.injEq, Prod.mk.injEq] at h
      obtain ⟨h1, h2, -⟩ := h
      exact ⟨g, by rw [← h1], h2.symm⟩

/-- C9: a successful worker dispatch applies the transform function only to
each record's `paraphrase` (content) field and leaves `entry`,
`content_type` and `rowid` unchanged, returning a new chunk with the same
length and the same record order as the input chunk. -/
theorem transformHtmlRecordsWorker_frame (load : String → Except String TransformFn)
    (st : WorkerState) (records : List MdxRecord) (modulePath : String)
    (st' : WorkerState) (out : List MdxRecord) (didLoad : Bool)
    (h : transformHtmlRecordsWorker load st records modulePath = .ok (st', out, didLoad)) :
    out.length = records.length ∧
    ∃ f, st'.transformHtml = some f ∧
      ∀ i (hi : i < records.length) (ho : i < out.length),
        (out.get ⟨i, ho⟩).entry = (records.get ⟨i, hi⟩).entry ∧
        (out.get ⟨i, ho⟩).content_type = (records.get ⟨i, hi⟩).content_type ∧
        (out.get ⟨i, ho⟩).rowid = (records.get ⟨i, hi⟩).rowid ∧
        (out.get ⟨i, ho⟩).paraphrase = f (records.get ⟨i, hi⟩).paraphrase := by
  obtain ⟨f, hf, hout⟩ := transformHtmlRecordsWorker_ok load st records modulePath st' out didLoad h
  subst hout
  refine ⟨transformHtmlRecordsPure_length f records, f, hf, ?_⟩
  intro i hi ho
  simp [transformHtmlRecordsPure, List.get_eq_getElem]

/-- C9 witness: a concrete successful dispatch on a fresh worker context. -/
theorem transformHtmlRecordsWorker_frame_witness :
    (transformHtmlRecordsWorker loadOk ⟨none, none⟩ [recA] "mod"
        = .ok (⟨some identityFn, some "mod"⟩, [recA], true)) ∧
    ([recA] : List MdxRecord).length = ([recA] : List MdxRecord).length :=
  ⟨rfl, (transformHtmlRecordsWorker_frame loadOk ⟨none, none⟩ [recA] "mod"
    ⟨some identityFn, some "mod"⟩ [recA] true rfl).1⟩

/-! ## The content-type partitioner -/

/-- C10: `splitRecordsByContentType` returns the HTML records and the LINK
records, each in source relative order (they are exactly the corresponding
filters of the input), and silently drops every record whose `content_type`
is neither HTML nor LINK — such a record belongs to neither output, so the
outputs cover the input only over records of a known kind. -/
theorem splitRecordsByContentType_partition (records : List MdxRecord) :
    (splitRecordsByContentType records).1
        = records.filter (fun r => r.content_type == ContentType.HTML) ∧
    (splitRecordsByContentType records).2
        = records.filter (fun r => r.content_type == ContentType.LINK) ∧
    ∀ r ∈ records, r.content_type ≠ ContentType.HTML → r.content_type ≠ ContentType.LINK →
      r ∉ (splitRecordsByContentType records).1 ∧ r ∉ (splitRecordsByContentType records).2 := by
  have main : ∀ l : List MdxRecord,
      (splitRecordsByContentType l).1 = l.filter (fun r => r.content_type == ContentType.HTML) ∧
      (splitRecordsByContentType l).2 = l.filter (fun r => r.content_type == ContentType.LINK) := by
    intro l
    induction l with
    | nil => exact ⟨rfl, rfl⟩
    | cons r rest ih =>
      by_cases h0 : r.content_type = ContentType.HTML
      · simp [splitRecordsByContentType, List.filter_cons, h0, ih.1, ih.2,
          show ((ContentType.HTML == ContentType.LINK) = false) from rfl]
      · by_cases h1 : r.content_type = ContentType.LINK
        · simp [splitRecordsByContentType, List.filter_cons, h0, h1, ih.1, ih.2,
            show ((ContentType.LINK == ContentType.HTML) = false) from rfl]
        · simp [splitRecordsByContentType, List.filter_cons, h0, h1, ih.1, ih.2]
  refine ⟨(main records).1, (main records).2, ?_⟩
  intro r _ h0 h1
  constructor
  · rw [(main records).1]
    intro hmem
    rcases List.mem_filter.mp hmem with ⟨-, hct⟩
    exact h0 (by simpa using hct)
  · rw [(main records).2]
    intro hmem
    rcases List.mem_filter.mp hmem with ⟨-, hct⟩
    exact h1 (by simpa using hct)

/-- C10 witness: on a store with one HTML, one LINK and one unknown-kind
record, the unknown-kind record lands in neither output list. -/
theorem splitRecordsByContentType_partition_witness :
    recOther ∉ (splitRecordsByContentType [recA, recX, recOther]).1 ∧
    recOther ∉ (splitRecordsByContentType [recA, recX, recOther]).2 :=
  (splitRecordsByContentType_partition [recA, recX, recOther]).2.2 recOther
    (by decide) (by decide) (by decide)

/-! ## Worker-context caching -/

/-- C8 counterexample: the worker context caches a single module, keyed by
the most recently loaded path only.  After dispatches carrying paths "a"
then "b", a third dispatch carrying path "a" loads again (its `didLoad` flag
is `true`), although "a" had already been loaded and cached in this very
context — refuting that every subsequent dispatch with the same `modulePath`
reuses the cached function without reloading. -/
theorem transformHtmlRecordsWorker_reload_counterexample :
    transformHtmlRecordsWorker loadOk ⟨none, none⟩ [] "a"
        = .ok (⟨some identityFn, some "a"⟩, [], true) ∧
    transformHtmlRecordsWorker loadOk ⟨some identityFn, some "a"⟩ [] "b"
        = .ok (⟨some identityFn, some "b"⟩, [], true) ∧
    transformHtmlRecordsWorker loadOk ⟨some identityFn, some "b"⟩ [] "a"
        = .ok (⟨some identityFn, some "a"⟩, [], true) := by
  refine ⟨rfl, ?_, ?_⟩ <;>
    simp [transformHtmlRecordsWorker, loadOk, transformHtmlRecordsPure]

/-- C8 (amended): the worker context caches one loaded transform function,
keyed by the most recently dispatched `modulePath`.  A dispatch whose path
equals the cached path reuses the cached function without reloading and
leaves the cache unchanged; the first dispatch on a fresh context loads and
caches; and after any successful dispatch the cache holds a function for
that dispatch's path — so, as long as no intervening dispatch carries a
different path, subsequent same-path dispatches never reload. -/
theorem transformHtmlRecordsWorker_cache :
    (∀ (load : String → Except String TransformFn) (st : WorkerState) (f : TransformFn)
        (records : List MdxRecord) (modulePath : String),
      st.transformHtml = some f → st.transformModulePath = some modulePath →
        transformHtmlRecordsWorker load st records modulePath
          = .ok (st, transformHtmlRecordsPure f records, false)) ∧
    (∀ (load : String → Except String TransformFn) (records : List MdxRecord)
        (modulePath : String) (f : TransformFn),
      load modulePath = .ok f →
        transformHtmlRecordsWorker load ⟨none, none⟩ records modulePath
          = .ok (⟨some f, some modulePath⟩, transformHtmlRecordsPure f records, true)) ∧
    (∀ (load : String → Except String TransformFn) (st st' : WorkerState)
        (records out : List MdxRecord) (modulePath : String) (didLoad : Bool),
      transformHtmlRecordsWorker load st records modulePath = .ok (st', out, didLoad) →
        st'.transformModulePath = some modulePath ∧ st'.transformHtml.isSome = true) := by
  refine ⟨?_, ?_, ?_⟩
  · intro load st f records modulePath h1 h2
    unfold transformHtmlRecordsWorker
    simp only [h1, if_pos h2]
  · intro load records modulePath f hload
    unfold transformHtmlRecordsWorker
    simp only [hload]
  · intro load st st' records out modulePath didLoad h
    unfold transformHtmlRecordsWorker at h
    cases hcache : st.transformHtml with
    | some f =>
      simp only [hcache] at h
      by_cases hpath : st.transformModulePath = some modulePath
      · simp only [if_pos hpath, Except.ok.injEq, Prod.mk.injEq] at h
        obtain ⟨h1, -, -⟩ := h
        exact ⟨by rw [← h1, hpath], by rw [← h1, hcache]; rfl⟩
      · simp only [if_neg hpath] at h
        cases hload : load modulePath with
        | error e => simp only [hload] at h; exact absurd h (by simp)
        | ok g =>
          simp only [hload, Except.ok.injEq, Prod.mk.injEq] at h
          obtain ⟨h1, -, -⟩ := h
          rw [← h1]
          exact ⟨rfl, rfl⟩
    | none =>
      simp only [hcache] at h
      cases hload : load modulePath with
      | error e => simp only [hload] at h; exact absurd h (by simp)
      | ok g =>
        simp only [hload, Except.ok.injEq, Prod.mk.injEq] at h
        obtain ⟨h1, -, -⟩ := h
        rw [← h1]
        exact ⟨rfl, rfl⟩

/-- C8 witness: a same-path dispatch on a warm cache does not reload, and a
first dispatch on a fresh context loads and caches. -/
theorem transformHtmlRecordsWorker_cache_witness :
    transformHtmlRecordsWorker loadOk ⟨some identityFn, some "mod"⟩ [recA] "mod"
        = .ok (⟨some identityFn, some "mod"⟩, [recA], false) ∧
    transformHtmlRecordsWorker loadOk ⟨none, none⟩ [recA] "mod"
        = .ok (⟨some identityFn, some "mod"⟩, [recA], true) :=
  ⟨transformHtmlRecordsWorker_cache.1 loadOk ⟨some identityFn, some "mod"⟩ identityFn
      [recA] "mod" rfl rfl,
   transformHtmlRecordsWorker_cache.2.1 loadOk [recA] "mod" identityFn rfl⟩

/-! ## Pool lifecycle -/

theorem genBodyEvents_no_lifecycle (l : List Nat) :
    PoolEvent.terminate ∉ genBodyEvents l ∧ PoolEvent.createPool ∉ genBodyEvents l := by
  constructor <;>
  · intro hmem
    rw [genBodyEvents, List.mem_flatten] at hmem
    obtain ⟨evs, hevs, hin⟩ := hmem
    rw [List.mem_map] at hevs
    obtain ⟨c, -, rfl⟩ := hevs
    rcases List.mem_append.mp hin with h | h
    · exact absurd (List.eq_of_mem_replicate h) (by decide)
    · rw [List.mem_singleton] at h
      exact absurd h (by decide)

theorem genRunEvents_count_aux (body : List PoolEvent)
    (hterm : PoolEvent.terminate ∉ body) (hcreate : PoolEvent.createPool ∉ body) :
    (PoolEvent.createPool :: body ++ [PoolEvent.terminate]).count PoolEvent.terminate = 1 ∧
    (PoolEvent.createPool :: body ++ [PoolEvent.terminate]).count PoolEvent.createPool = 1 := by
  constructor <;>
    simp [List.count_cons, List.count_append, List.count_eq_zero.mpr hterm,
      List.count_eq_zero.mpr hcreate, List.count_singleton]

theorem genRunEvents_lifecycle (l : List Nat) (fate : GenFate) :
    (genRunEvents l fate).count PoolEvent.terminate = 1 ∧
    (genRunEvents l fate).count PoolEvent.createPool = 1 := by
  obtain ⟨hterm, hcreate⟩ := genBodyEvents_no_lifecycle l
  cases fate with
  | complete => exact genRunEvents_count_aux _ hterm hcreate
  | throwAt k =>
    exact genRunEvents_count_aux _ (fun h => hterm (List.mem_of_mem_take h))
      (fun h => hcreate (List.mem_of_mem_take h))
  | cancelAt k =>
    exact genRunEvents_count_aux _ (fun h => hterm (List.mem_of_mem_take h))
      (fun h => hcreate (List.mem_of_mem_take h))

/-- C5: in every run of either pipeline generator — whatever the store, the
page size, the chunk size, and whether the run completes, throws after any
number of body events, or is abandoned by its consumer after any number of
body events — the pool is created exactly once and `pool.terminate()` is
invoked exactly once, so no run leaks worker contexts. -/
theorem poolTerminate_exactly_once (db : List MdxRecord) (pageSize chunkSize : Nat)
    (fate : GenFate) :
    (processRecordsInParallelEvents db pageSize chunkSize fate).count PoolEvent.terminate = 1 ∧
    (processRecordsInParallelEvents db pageSize chunkSize fate).count PoolEvent.createPool = 1 ∧
    (transformHtmlRecordsInParallelEvents db pageSize chunkSize fate).count PoolEvent.terminate = 1 ∧
    (transformHtmlRecordsInParallelEvents db pageSize chunkSize fate).count PoolEvent.createPool = 1 :=
  ⟨(genRunEvents_lifecycle _ fate).1, (genRunEvents_lifecycle _ fate).2,
   (genRunEvents_lifecycle _ fate).1, (genRunEvents_lifecycle _ fate).2⟩

/-! ## Pagination lemmas -/

theorem rowid_nodup_of_perm {l m : List MdxRecord} (h : List.Perm l m)
    (hnd : (m.map MdxRecord.rowid).Nodup) : (l.map MdxRecord.rowid).Nodup :=
  (h.map MdxRecord.rowid).symm.nodup hnd

theorem rowid_nodup_of_sublist {l m : List MdxRecord} (h : List.Sublist l m)
    (hnd : (m.map MdxRecord.rowid).Nodup) : (l.map MdxRecord.rowid).Nodup :=
  (h.map MdxRecord.rowid).nodup hnd

theorem pairwise_lt_of_le_nodup {l : List MdxRecord}
    (hle : l.Pairwise rowidLE) (hnd : (l.map MdxRecord.rowid).Nodup) :
    l.Pairwise rowidLT := by
  have hne : l.Pairwise (fun a b => a.rowid ≠ b.rowid) := List.pairwise_map.mp hnd
  exact (hle.and hne).imp fun h => Nat.lt_of_le_of_ne h.1 h.2

theorem fetchRecords_perm (db : List MdxRecord) (ct : Option Nat) :
    List.Perm (fetchRecords db ct) (db.filter (matchCT ct)) :=
  List.perm_insertionSort rowidLE _

theorem fetchRecords_sorted (db : List MdxRecord) (ct : Option Nat) :
    (fetchRecords db ct).Pairwise rowidLE :=
  List.sorted_insertionSort rowidLE _

theorem fetchRecords_nodup_rowid (db : List MdxRecord) (ct : Option Nat)
    (hnd : (db.map MdxRecord.rowid).Nodup) :
    ((fetchRecords db ct).map MdxRecord.rowid).Nodup :=
  rowid_nodup_of_perm (fetchRecords_perm db ct)
    (rowid_nodup_of_sublist (List.filter_sublist db) hnd)

theorem fetchRecords_pairwise_lt (db : List MdxRecord) (ct : Option Nat)
    (hnd : (db.map MdxRecord.rowid).Nodup) :
    (fetchRecords db ct).Pairwise rowidLT :=
  pairwise_lt_of_le_nodup (fetchRecords_sorted db ct) (fetchRecords_nodup_rowid db ct hnd)

/-- On a store with pairwise-distinct rowids, one cursor pull equals a
window of the globally sorted matching rows: the records past the watermark,
truncated to the page size. -/
theorem sqlSelectPage_eq_window (db : List MdxRecord) (ct : Option Nat) (w n : Nat)
    (hnd : (db.map MdxRecord.rowid).Nodup) :
    sqlSelectPage db ct w n
      = ((fetchRecords db ct).filter fun r => decide (w < r.rowid)).take n := by
  rw [sqlSelectPage]
  congr 1
  have hfilter : db.filter (fun r => matchCT ct r && decide (w < r.rowid))
      = (db.filter (matchCT ct)).filter (fun r => decide (w < r.rowid)) := by
    rw [List.filter_filter]
    exact List.filter_congr fun a _ => Bool.and_comm _ _
  have hL : List.Perm (sortByRowid (db.filter fun r => matchCT ct r && decide (w < r.rowid)))
      (db.filter fun r => matchCT ct r && decide (w < r.rowid)) :=
    List.perm_insertionSort rowidLE _
  have hR : List.Perm ((fetchRecords db ct).filter fun r => decide (w < r.rowid))
      ((db.filter (matchCT ct)).filter fun r => decide (w < r.rowid)) :=
    (fetchRecords_perm db ct).filter _
  have hperm : List.Perm (sortByRowid (db.filter fun r => matchCT ct r && decide (w < r.rowid)))
      ((fetchRecords db ct).filter fun r => decide (w < r.rowid)) := by
    refine hL.trans ?_
    rw [hfilter]
    exact hR.symm
  have hndA : ((db.filter fun r => matchCT ct r && decide (w < r.rowid)).map
      MdxRecord.rowid).Nodup :=
    rowid_nodup_of_sublist (List.filter_sublist db) hnd
  have hsortedL : (sortByRowid (db.filter fun r =>
      matchCT ct r && decide (w < r.rowid))).Pairwise rowidLT :=
    pairwise_lt_of_le_nodup (List.sorted_insertionSort rowidLE _)
      (rowid_nodup_of_perm hL hndA)
  have hsortedR : ((fetchRecords db ct).filter fun r =>
      decide (w < r.rowid)).Pairwise rowidLT :=
    (fetchRecords_pairwise_lt db ct hnd).sublist (List.filter_sublist _)
  exact List.eq_of_perm_of_sorted hperm hsortedL hsortedR

theorem mem_rowid_le_getLast : ∀ {l : List MdxRecord}, l.Pairwise rowidLT →
    ∀ (hne : l ≠ []) {x : MdxRecord}, x ∈ l → x.rowid ≤ (l.getLast hne).rowid := by
  intro l
  induction l with
  | nil => intro _ hne; exact absurd rfl hne
  | cons a rest ih =>
    intro hl hne x hx
    cases rest with
    | nil =>
      rw [List.mem_singleton] at hx
      subst hx
      exact Nat.le_refl _
    | cons b rest' =>
      rw [List.getLast_cons (List.cons_ne_nil b rest')]
      rcases List.mem_cons.mp hx with rfl | hx'
      · have hmem := List.getLast_mem (l := b :: rest') (List.cons_ne_nil b rest')
        exact Nat.le_of_lt ((List.pairwise_cons.mp hl).1 _ hmem)
      · exact ih (List.pairwise_cons.mp hl).2 (List.cons_ne_nil b rest') hx'

/-- In a strictly rowid-sorted list whose first `n` records form the page
`r :: rs`, the records with rowid beyond the page's last rowid are exactly
the records after the page — the cursor's next pull resumes gap-free. -/
theorem filter_gt_getLast_take {T : List MdxRecord} (hT : T.Pairwise rowidLT)
    {n : Nat} {r : MdxRecord} {rs : List MdxRecord} (hm : T.take n = r :: rs) :
    T.filter (fun x => decide (((r :: rs).getLast (List.cons_ne_nil r rs)).rowid < x.rowid))
      = T.drop n := by
  have happ : (T.take n ++ T.drop n).Pairwise rowidLT := by
    rw [List.take_append_drop]; exact hT
  obtain ⟨htake, -, hcross⟩ := List.pairwise_append.mp happ
  have hlast_mem : (r :: rs).getLast (List.cons_ne_nil r rs) ∈ T.take n := by
    rw [hm]; exact List.getLast_mem _
  have htake' : (r :: rs).Pairwise rowidLT := hm ▸ htake
  have hle : ∀ x ∈ T.take n,
      x.rowid ≤ ((r :: rs).getLast (List.cons_ne_nil r rs)).rowid := by
    intro x hx
    rw [hm] at hx
    exact mem_rowid_le_getLast htake' (List.cons_ne_nil r rs) hx
  have hgt : ∀ y ∈ T.drop n,
      ((r :: rs).getLast (List.cons_ne_nil r rs)).rowid < y.rowid := fun y hy =>
    hcross _ hlast_mem y hy
  have h1 : (T.take n).filter
      (fun x => decide (((r :: rs).getLast (List.cons_ne_nil r rs)).rowid < x.rowid)) = [] := by
    refine List.filter_eq_nil_iff.mpr fun x hx hdec => ?_
    exact absurd (of_decide_eq_true hdec) (Nat.not_lt.mpr (hle x hx))
  have h2 : (T.drop n).filter
      (fun x => decide (((r :: rs).getLast (List.cons_ne_nil r rs)).rowid < x.rowid))
      = T.drop n :=
    List.filter_eq_self.mpr fun y hy => decide_eq_true (hgt y hy)
  conv_lhs => rw [← List.take_append_drop n T]
  rw [List.filter_append, h1, h2, List.nil_append]

/-- The pages produced by the cursor loop concatenate, gap-free and in
order, to all matching records past the starting watermark. -/
theorem fetchRecordsPaginatedGo_flatten (db : List MdxRecord) (ct : Option Nat) (n : Nat)
    (hn : 0 < n) (hnd : (db.map MdxRecord.rowid).Nodup) :
    ∀ (fuel w : Nat),
      ((fetchRecords db ct).filter fun r => decide (w < r.rowid)).length < fuel →
      (fetchRecordsPaginatedGo db ct n fuel w).flatten
        = (fetchRecords db ct).filter fun r => decide (w < r.rowid) := by
  intro fuel
  induction fuel with
  | zero => intro w h; exact absurd h (Nat.not_lt_zero _)
  | succ fuel ih =>
    intro w hlen
    have hpage := sqlSelectPage_eq_window db ct w n hnd
    cases hm : sqlSelectPage db ct w n with
    | nil =>
      have htake : ((fetchRecords db ct).filter fun r => decide (w < r.rowid)).take n = [] :=
        hpage.symm.trans hm
      rcases List.take_eq_nil_iff.mp htake with h0 | h0
      · omega
      · simp only [fetchRecordsPaginatedGo, hm, h0, List.flatten_nil]
    | cons r rs =>
      set S := (fetchRecords db ct).filter fun x => decide (w < x.rowid) with hSdef
      have htake : S.take n = r :: rs := hpage.symm.trans hm
      have hSlt : S.Pairwise rowidLT :=
        (fetchRecords_pairwise_lt db ct hnd).sublist (List.filter_sublist _)
      set L := ((r :: rs).getLast (List.cons_ne_nil r rs)) with hLdef
      have hstep : S.filter (fun x => decide (L.rowid < x.rowid)) = S.drop n :=
        filter_gt_getLast_take hSlt htake
      have hwL : w < L.rowid := by
        have hmem : L ∈ S := by
          have h2 : L ∈ S.take n := by
            rw [htake]
            exact List.getLast_mem (l := r :: rs) (List.cons_ne_nil r rs)
          exact List.mem_of_mem_take h2
        rw [hSdef] at hmem
        exact of_decide_eq_true (List.mem_filter.mp hmem).2
      have hTfilter : (fetchRecords db ct).filter (fun x => decide (L.rowid < x.rowid))
          = S.filter (fun x => decide (L.rowid < x.rowid)) := by
        rw [hSdef, List.filter_filter]
        refine (List.filter_congr fun a _ => ?_).symm
        by_cases hq : L.rowid < a.rowid
        · simp [hq, Nat.lt_trans hwL hq]
        · simp [hq]
      have hSne : S ≠ [] := by
        intro h0
        rw [h0] at htake
        simp at htake
      have hbound : ((fetchRecords db ct).filter fun x =>
          decide (L.rowid < x.rowid)).length < fuel := by
        rw [hTfilter, hstep]
        have hposS : 0 < S.length := List.length_pos.mpr hSne
        simp only [List.length_drop]
        omega
      have hrec := ih L.rowid hbound
      simp only [fetchRecordsPaginatedGo, hm]
      rw [← hLdef, List.flatten_cons, hrec, hTfilter, hstep, ← htake,
        List.take_append_drop]

/-- For a positive page size, over a store with distinct positive rowids,
the cursor's pages concatenate exactly to the sorted matching rows. -/
theorem fetchRecordsPaginated_flatten (db : List MdxRecord) (ct : Option Nat) (n : Nat)
    (hn : 0 < n) (hnd : (db.map MdxRecord.rowid).Nodup)
    (hpos : ∀ r ∈ db, 0 < r.rowid) :
    (fetchRecordsPaginated db ct n).flatten = fetchRecords db ct := by
  have hfill : (fetchRecords db ct).filter (fun r => decide (0 < r.rowid))
      = fetchRecords db ct := by
    refine List.filter_eq_self.mpr fun a ha => ?_
    refine decide_eq_true (hpos a ?_)
    exact (List.mem_filter.mp ((fetchRecords_perm db ct).subset ha)).1
  have hbound : ((fetchRecords db ct).filter fun r =>
      decide (0 < r.rowid)).length < db.length + 1 := by
    rw [hfill]
    have h1 : (fetchRecords db ct).length = (db.filter (matchCT ct)).length :=
      (fetchRecords_perm db ct).length_eq
    have h2 := List.length_filter_le (matchCT ct) db
    omega
  rw [fetchRecordsPaginated,
    fetchRecordsPaginatedGo_flatten db ct n hn hnd (db.length + 1) 0 hbound, hfill]

/-! ## Page reassembly -/

theorem transformRecordIfHtml_entry (f : TransformFn) (r : MdxRecord) :
    (transformRecordIfHtml f r).entry = r.entry := by
  unfold transformRecordIfHtml
  split <;> rfl

theorem transformRecordIfHtml_rowid (f : TransformFn) (r : MdxRecord) :
    (transformRecordIfHtml f r).rowid = r.rowid := by
  unfold transformRecordIfHtml
  split <;> rfl

/-- Writing the transformed HTML records back over the HTML positions of a
page re-interleaves by original position: the page keeps its shape, HTML
records get the transformed paraphrases, the rest pass through. -/
theorem mergeTransformedHtml_spec (f : TransformFn) (page : List MdxRecord) :
    mergeTransformedHtml page
        (transformHtmlRecordsPure f (page.filter fun r => r.content_type == ContentType.HTML))
      = page.map (transformRecordIfHtml f) := by
  induction page with
  | nil => rfl
  | cons r rest ih =>
    by_cases h : (r.content_type == ContentType.HTML) = true
    · simp only [transformHtmlRecordsPure] at ih
      simp [mergeTransformedHtml, transformHtmlRecordsPure, List.filter_cons, h,
        transformRecordIfHtml, ih]
    · simp only [transformHtmlRecordsPure] at ih
      simp [mergeTransformedHtml, transformHtmlRecordsPure, List.filter_cons, h,
        transformRecordIfHtml, ih]

theorem processPage_eq (f : TransformFn) (c : Nat) (hc : 0 < c) (page : List MdxRecord) :
    processPage f c page = page.map (transformRecordIfHtml f) := by
  rw [processPage, transformHtmlRecordsInParallelStatic_eq f c hc, mergeTransformedHtml_spec]

theorem interleavedRun_eq (f : TransformFn) (db : List MdxRecord) (P C : Nat)
    (hP : 0 < P) (hC : 0 < C) (hnd : (db.map MdxRecord.rowid).Nodup)
    (hpos : ∀ r ∈ db, 0 < r.rowid) :
    runTransformWorkflowInterleaved f db P C
      = (fetchRecords db none).map (transformRecordIfHtml f) := by
  rw [runTransformWorkflowInterleaved, processRecordsInParallel]
  have h1 : (fetchRecordsPaginated db none P).map (processPage f C)
      = (fetchRecordsPaginated db none P).map (List.map (transformRecordIfHtml f)) :=
    List.map_congr_left fun page _ => processPage_eq f C hC page
  rw [h1, ← List.map_flatten, fetchRecordsPaginated_flatten db none P hP hnd hpos]

theorem htmlBeforeLinkRun_eq (f : TransformFn) (db : List MdxRecord) (P C : Nat)
    (hP : 0 < P) (hC : 0 < C) (hnd : (db.map MdxRecord.rowid).Nodup)
    (hpos : ∀ r ∈ db, 0 < r.rowid) :
    runTransformWorkflowHtmlBeforeLink f db P C
      = transformHtmlRecordsPure f (fetchRecords db (some ContentType.HTML))
        ++ fetchLinkRecords db := by
  have hmap : transformHtmlRecordsPure f
      = List.map (fun record => { record with paraphrase := f record.paraphrase }) := rfl
  rw [runTransformWorkflowHtmlBeforeLink, transformHtmlRecordsInParallelGen,
    fetchHtmlRecordsPaginated, hmap]
  have h1 : (fetchRecordsPaginated db (some ContentType.HTML) P).map
        (fun page => transformHtmlRecordsInParallelStatic f page C)
      = (fetchRecordsPaginated db (some ContentType.HTML) P).map
        (List.map fun record => { record with paraphrase := f record.paraphrase }) :=
    List.map_congr_left fun page _ => transformHtmlRecordsInParallelStatic_eq f C hC page
  rw [h1, ← List.map_flatten,
    fetchRecordsPaginated_flatten db (some ContentType.HTML) P hP hnd hpos]

/-- C2: without `htmlBeforeLink`, the destination is the source's records in
rowid (source) order, each HTML record transformed in place and every other
record passed through at its original position — so for any two source
records A before B, A is written before B, and destination rowids are
strictly increasing. -/
theorem interleaved_preserves_order (f : TransformFn) (db : List MdxRecord) (P C : Nat)
    (hP : 0 < P) (hC : 0 < C) (hnd : (db.map MdxRecord.rowid).Nodup)
    (hpos : ∀ r ∈ db, 0 < r.rowid) :
    runTransformWorkflowInterleaved f db P C
        = (fetchRecords db none).map (transformRecordIfHtml f) ∧
    (runTransformWorkflowInterleaved f db P C).Pairwise rowidLT := by
  have heq := interleavedRun_eq f db P C hP hC hnd hpos
  refine ⟨heq, ?_⟩
  rw [heq]
  have hT := fetchRecords_pairwise_lt db none hnd
  exact List.pairwise_map.mpr (hT.imp fun {a b} hab => by
    simpa [rowidLT, transformRecordIfHtml_rowid] using hab)

/-- C2 witness: on the five-record sample store with page size 2 and chunk
size 1, the destination is the sorted source with HTML paraphrases
transformed in place. -/
theorem interleaved_preserves_order_witness :
    runTransformWorkflowInterleaved exclaimFn sampleDb 2 1
      = (fetchRecords sampleDb none).map (transformRecordIfHtml exclaimFn) :=
  (interleaved_preserves_order exclaimFn sampleDb 2 1 (by decide) (by decide) (by decide)
    (by decide)).1

/-- C3: with `htmlBeforeLink`, the destination is exactly the transformed
HTML records in source relative order, followed by the LINK (pass-through)
records, unchanged, as a single final batch — every transformed record
precedes every pass-through record. -/
theorem htmlBeforeLink_order (f : TransformFn) (db : List MdxRecord) (P C : Nat)
    (hP : 0 < P) (hC : 0 < C) (hnd : (db.map MdxRecord.rowid).Nodup)
    (hpos : ∀ r ∈ db, 0 < r.rowid) :
    runTransformWorkflowHtmlBeforeLink f db P C
      = transformHtmlRecordsPure f (fetchRecords db (some ContentType.HTML))
        ++ fetchLinkRecords db :=
  htmlBeforeLinkRun_eq f db P C hP hC hnd hpos

/-- C3 witness: on the sample store the transformed HTML records a, b, c
come first, then the unchanged LINK records x, y. -/
theorem htmlBeforeLink_order_witness :
    runTransformWorkflowHtmlBeforeLink exclaimFn sampleDb 2 1
      = transformHtmlRecordsPure exclaimFn (fetchRecords sampleDb (some ContentType.HTML))
        ++ fetchLinkRecords sampleDb :=
  htmlBeforeLink_order exclaimFn sampleDb 2 1 (by decide) (by decide) (by decide) (by decide)

/-! ## Whole-run conservation -/

theorem filter_link_eq_not_html (db : List MdxRecord)
    (hkind : ∀ r ∈ db, r.content_type = ContentType.HTML ∨ r.content_type = ContentType.LINK) :
    db.filter (matchCT (some ContentType.LINK))
      = db.filter fun r => !(matchCT (some ContentType.HTML) r) := by
  refine List.filter_congr fun a ha => ?_
  rcases hkind a ha with h | h <;>
    simp [matchCT, h, ContentType.HTML, ContentType.LINK]

/-- C1 counterexample: the claim quantifies over all page sizes and chunk
sizes, but with page size 0 the cursor's first `LIMIT 0` query returns no
rows, so the run completes immediately and a one-record source yields zero
destination records in both modes — not exactly N = 1. -/
theorem runTransformWorkflow_pageSizeZero_counterexample :
    runTransformWorkflowInterleaved identityFn [recA] 0 1 = [] ∧
    runTransformWorkflowHtmlBeforeLink identityFn [recA] 0 1 = [] ∧
    ([recA] : List MdxRecord).length = 1 := by
  refine ⟨?_, ?_, rfl⟩ <;> rfl

/-- C1 (amended): for every static source with pairwise-distinct positive
rowids whose records all have a known kind, and for all page sizes P ≥ 1
and chunk sizes C ≥ 1, a complete run of the transform workflow in either
reorder mode inserts exactly N records into the destination, whose keys are
a permutation of the source's keys — no duplicate and no missing keys
relative to the source at run start. -/
theorem runTransformWorkflow_complete (f : TransformFn) (db : List MdxRecord) (P C : Nat)
    (hP : 0 < P) (hC : 0 < C) (hnd : (db.map MdxRecord.rowid).Nodup)
    (hpos : ∀ r ∈ db, 0 < r.rowid)
    (hkind : ∀ r ∈ db, r.content_type = ContentType.HTML ∨ r.content_type = ContentType.LINK) :
    (runTransformWorkflowInterleaved f db P C).length = db.length ∧
    List.Perm ((runTransformWorkflowInterleaved f db P C).map MdxRecord.entry)
      (db.map MdxRecord.entry) ∧
    (runTransformWorkflowHtmlBeforeLink f db P C).length = db.length ∧
    List.Perm ((runTransformWorkflowHtmlBeforeLink f db P C).map MdxRecord.entry)
      (db.map MdxRecord.entry) := by
  have hi := interleavedRun_eq f db P C hP hC hnd hpos
  have hh := htmlBeforeLinkRun_eq f db P C hP hC hnd hpos
  have hfilter_none : db.filter (matchCT none) = db :=
    List.filter_eq_self.mpr fun a _ => rfl
  have hTnone : List.Perm (fetchRecords db none) db := by
    have h := fetchRecords_perm db none
    rwa [hfilter_none] at h
  have hlen_i : (runTransformWorkflowInterleaved f db P C).length = db.length := by
    rw [hi, List.length_map, hTnone.length_eq]
  have hcomp : (MdxRecord.entry ∘ transformRecordIfHtml f) = MdxRecord.entry := by
    funext r
    exact transformRecordIfHtml_entry f r
  have hperm_i : List.Perm ((runTransformWorkflowInterleaved f db P C).map MdxRecord.entry)
      (db.map MdxRecord.entry) := by
    rw [hi, List.map_map, hcomp]
    exact hTnone.map MdxRecord.entry
  have hsplit : List.Perm (db.filter (matchCT (some ContentType.HTML))
      ++ db.filter (matchCT (some ContentType.LINK))) db := by
    rw [filter_link_eq_not_html db hkind]
    exact List.filter_append_perm _ db
  have hlen_h : (runTransformWorkflowHtmlBeforeLink f db P C).length = db.length := by
    rw [hh, List.length_append, transformHtmlRecordsPure_length]
    have h1 := (fetchRecords_perm db (some ContentType.HTML)).length_eq
    have h2 := (fetchRecords_perm db (some ContentType.LINK)).length_eq
    have h4 := hsplit.length_eq
    rw [List.length_append] at h4
    have h3 : (fetchLinkRecords db).length
        = (db.filter (matchCT (some ContentType.LINK))).length := h2
    omega
  have hperm_h : List.Perm ((runTransformWorkflowHtmlBeforeLink f db P C).map MdxRecord.entry)
      (db.map MdxRecord.entry) := by
    rw [hh, List.map_append]
    have hpure : (transformHtmlRecordsPure f
          (fetchRecords db (some ContentType.HTML))).map MdxRecord.entry
        = (fetchRecords db (some ContentType.HTML)).map MdxRecord.entry := by
      rw [transformHtmlRecordsPure, List.map_map]
      exact List.map_congr_left fun r _ => rfl
    rw [hpure, ← List.map_append]
    refine List.Perm.map MdxRecord.entry ?_
    have h5 : List.Perm
        (fetchRecords db (some ContentType.HTML) ++ fetchRecords db (some ContentType.LINK))
        (db.filter (matchCT (some ContentType.HTML))
          ++ db.filter (matchCT (some ContentType.LINK))) :=
      (fetchRecords_perm db _).append (fetchRecords_perm db _)
    exact h5.trans hsplit
  exact ⟨hlen_i, hperm_i, hlen_h, hperm_h⟩

/-- C1 witness: on the five-record sample store with page size 2 and chunk
size 1 both modes insert exactly five records. -/
theorem runTransformWorkflow_complete_witness :
    (runTransformWorkflowInterleaved exclaimFn sampleDb 2 1).length = sampleDb.length ∧
    (runTransformWorkflowHtmlBeforeLink exclaimFn sampleDb 2 1).length = sampleDb.length :=
  ⟨(runTransformWorkflow_complete exclaimFn sampleDb 2 1 (by decide) (by decide) (by decide)
      (by decide) (by decide)).1,
   (runTransformWorkflow_complete exclaimFn sampleDb 2 1 (by decide) (by decide) (by decide)
      (by decide) (by decide)).2.2.1⟩

/-! ## Cursor contract -/

/-- C6: for every watermark `w`, one cursor pull returns at most `pageSize`
records, all with rowid strictly greater than `w`, sorted ascending by
rowid, and returns the empty (end-of-stream) page when no matching records
exist; over an empty source the very first pull ends the stream, the run
yields no pages (zero destination writes) and sends zero pool dispatches. -/
theorem fetchRecordsPaginated_cursor_spec (db : List MdxRecord) (contentType : Option Nat)
    (w pageSize chunkSize : Nat) (f : TransformFn) :
    (sqlSelectPage db contentType w pageSize).length ≤ pageSize ∧
    (∀ r ∈ sqlSelectPage db contentType w pageSize, w < r.rowid) ∧
    (sqlSelectPage db contentType w pageSize).Pairwise rowidLE ∧
    (db.filter (fun r => matchCT contentType r && decide (w < r.rowid)) = [] →
      sqlSelectPage db contentType w pageSize = []) ∧
    fetchRecordsPaginated [] contentType pageSize = [] ∧
    runTransformWorkflowInterleaved f [] pageSize chunkSize = [] ∧
    (processRecordsInParallelEvents [] pageSize chunkSize .complete).count
      PoolEvent.dispatch = 0 := by
  have hempty : fetchRecordsPaginated [] contentType pageSize = [] := by
    rw [fetchRecordsPaginated]
    simp [fetchRecordsPaginatedGo, sqlSelectPage, sortByRowid]
  have hemptyNone : fetchRecordsPaginated ([] : List MdxRecord) none pageSize = [] := by
    rw [fetchRecordsPaginated]
    simp [fetchRecordsPaginatedGo, sqlSelectPage, sortByRowid]
  refine ⟨?_, ?_, ?_, ?_, hempty, ?_, ?_⟩
  · simp only [sqlSelectPage, List.length_take]
    exact Nat.min_le_left _ _
  · intro r hr
    rw [sqlSelectPage] at hr
    have h1 := List.mem_of_mem_take hr
    have h2 := (List.perm_insertionSort rowidLE _).subset h1
    have h3 := (List.mem_filter.mp h2).2
    simp only [Bool.and_eq_true] at h3
    exact of_decide_eq_true h3.2
  · exact List.Pairwise.sublist (List.take_sublist _ _) (List.sorted_insertionSort rowidLE _)
  · intro h
    rw [sqlSelectPage, h]
    simp [sortByRowid]
  · rw [runTransformWorkflowInterleaved, processRecordsInParallel, hemptyNone]
    rfl
  · rw [processRecordsInParallelEvents, hemptyNone]
    rfl

/-- C6 witness: page-length bound instantiated on the sample store, plus the
empty-source conjuncts. -/
theorem fetchRecordsPaginated_cursor_spec_witness :
    (sqlSelectPage sampleDb none 0 2).length ≤ 2 ∧
    fetchRecordsPaginated [] none 2 = [] ∧
    runTransformWorkflowInterleaved identityFn [] 2 1 = [] :=
  ⟨(fetchRecordsPaginated_cursor_spec sampleDb none 0 2 1 identityFn).1,
   (fetchRecordsPaginated_cursor_spec sampleDb none 0 2 1 identityFn).2.2.2.2.1,
   (fetchRecordsPaginated_cursor_spec [] none 0 2 1 identityFn).2.2.2.2.2.1⟩

/-! ## Load errors -/

theorem processPagesE_error (e : String) (C : Nat) (hC : 0 < C) :
    ∀ pages : List (List MdxRecord),
      (∃ page ∈ pages, ∃ r ∈ page, r.content_type = ContentType.HTML) →
      (processPagesE (.error e) C pages).1 = .error e ∧
        1 ≤ (processPagesE (.error e) C pages).2 := by
  intro pages hex
  induction pages with
  | nil => simp at hex
  | cons page rest ih =>
    by_cases hpage : ∃ r ∈ page, r.content_type = ContentType.HTML
    · obtain ⟨r, hr, hct⟩ := hpage
      have hmem : r ∈ page.filter fun x => x.content_type == ContentType.HTML :=
        List.mem_filter.mpr ⟨hr, by simp [hct]⟩
      cases hfl : page.filter (fun x => x.content_type == ContentType.HTML) with
      | nil => rw [hfl] at hmem; cases hmem
      | cons a rest' =>
        cases C with
        | zero => exact absurd hC (Nat.lt_irrefl 0)
        | succ c =>
          rw [processPagesE]
          simp only [hfl, chunkRecords]
          simp [dispatchChunksE]
    · have hfl : page.filter (fun x => x.content_type == ContentType.HTML) = [] := by
        rw [List.filter_eq_nil_iff]
        intro a ha hba
        exact hpage ⟨a, ha, by simpa using hba⟩
      have hex' : ∃ p ∈ rest, ∃ r ∈ p, r.content_type = ContentType.HTML := by
        obtain ⟨p, hp, hrp⟩ := hex
        rcases List.mem_cons.mp hp with rfl | hp'
        · exact absurd hrp hpage
        · exact ⟨p, hp', hrp⟩
      obtain ⟨h1, h2⟩ := ih hex'
      rw [processPagesE]
      simp only [hfl, chunkRecords, dispatchChunksE]
      cases hres : processPagesE (.error e) C rest with
      | mk res m =>
        rw [hres] at h1 h2
        simp only at h1 h2
        cases res with
        | error e' =>
          simp only [Except.error.injEq] at h1
          subst h1
          simpa using h2
        | ok v => exact absurd h1 (by simp)

/-- C7 counterexample: an existing but malformed module (wrong export shape)
over a one-HTML-record source aborts the run, but only after one chunk was
already dispatched to the worker pool — the run does not abort before any
work is dispatched. -/
theorem loadErrors_dispatch_counterexample :
    runTransformWorkflowE true (.error "wrong export shape") [recA] 1 1
      = (.error "wrong export shape", 1) := by
  have hpages : fetchRecordsPaginated [recA] none 1 = [[recA]] := rfl
  have hfl : ([recA] : List MdxRecord).filter (fun r => r.content_type == ContentType.HTML)
      = [recA] := rfl
  have hch : chunkRecords 1 [recA] = [[recA]] := by
    simp [chunkRecords]
  have h1 : processPagesE (.error "wrong export shape") 1 [[recA]]
      = (.error "wrong export shape", 1) := by
    rw [processPagesE]
    simp only [hfl, hch]
    rfl
  rw [runTransformWorkflowE, if_pos rfl, hpages, h1]

/-- C7 (amended): load errors are fatal and abort the run; a missing module
(caught by `validateModuleExists` before the pipeline starts) aborts before
any work is dispatched, with zero dispatches; a malformed module (wrong
export shape) is detected inside the first worker dispatches that load it,
so when the source contains a transformable record the run aborts with at
least one dispatch already sent to the pool. -/
theorem loadErrors_fatal :
    (∀ (load : Except String TransformFn) (db : List MdxRecord) (P C : Nat),
      runTransformWorkflowE false load db P C = (.error "Module not found at path", 0)) ∧
    (∀ (e : String) (db : List MdxRecord) (P C : Nat),
      0 < P → 0 < C → (db.map MdxRecord.rowid).Nodup → (∀ r ∈ db, 0 < r.rowid) →
      (∃ r ∈ db, r.content_type = ContentType.HTML) →
      (runTransformWorkflowE true (.error e) db P C).1 = .error e ∧
        1 ≤ (runTransformWorkflowE true (.error e) db P C).2) := by
  constructor
  · intro load db P C
    rfl
  · intro e db P C hP hC hnd hpos hhtml
    obtain ⟨r, hr, hct⟩ := hhtml
    have hmemT : r ∈ fetchRecords db none :=
      (fetchRecords_perm db none).mem_iff.mpr (List.mem_filter.mpr ⟨hr, rfl⟩)
    have hmemFl : r ∈ (fetchRecordsPaginated db none P).flatten := by
      rw [fetchRecordsPaginated_flatten db none P hP hnd hpos]
      exact hmemT
    obtain ⟨page, hpagemem, hrpage⟩ := List.mem_flatten.mp hmemFl
    have hpp := processPagesE_error e C hC (fetchRecordsPaginated db none P)
      ⟨page, hpagemem, r, hrpage, hct⟩
    rw [runTransformWorkflowE, if_pos rfl]
    cases hres : processPagesE (.error e) C (fetchRecordsPaginated db none P) with
    | mk res m =>
      rw [hres] at hpp
      obtain ⟨h1, h2⟩ := hpp
      simp only at h1 h2
      cases res with
      | error e' =>
        simp only [Except.error.injEq] at h1
        subst h1
        exact ⟨rfl, by simpa using h2⟩
      | ok v => exact absurd h1 (by simp)

/-- C7 witness: both amended conjuncts instantiated on the sample store. -/
theorem loadErrors_fatal_witness :
    runTransformWorkflowE false (.ok identityFn) sampleDb 2 1
        = (.error "Module not found at path", 0) ∧
    (runTransformWorkflowE true (.error "bad") sampleDb 2 1).1 = .error "bad" ∧
    1 ≤ (runTransformWorkflowE true (.error "bad") sampleDb 2 1).2 :=
  ⟨loadErrors_fatal.1 (.ok identityFn) sampleDb 2 1,
   (loadErrors_fatal.2 "bad" sampleDb 2 1 (by decide) (by decide) (by decide) (by decide)
      ⟨recA, by decide, rfl⟩).1,
   (loadErrors_fatal.2 "bad" sampleDb 2 1 (by decide) (by decide) (by decide) (by decide)
      ⟨recA, by decide, rfl⟩).2⟩
